import Mathlib

/-!
Verification development for the subnet-cli wallet/operator tool.

The Go sources are shallowly embedded: addresses (`ids.ShortID`) and asset
identifiers are `Nat`, transaction identifiers are byte lists (`List Nat`)
compared like `bytes.Compare`, and amounts are `Nat` (the Go code uses
`uint64` arithmetic that never underflows on the traced paths: every
subtraction in the selection loops is of the form `x - min x y`).
External collaborators (codec, CB58 encoding, secp256k1 key construction,
ledger device, node RPC) are passed in as explicit parameters or records,
mirroring the call boundaries of the source.
-/

namespace SubnetCLI

/-- secp256k1fx.OutputOwners: a lock time, a signature threshold and an
address list. -/
structure OutputOwners where
  locktime : Nat
  threshold : Nat
  addrs : List Nat
  deriving DecidableEq, Repr

/-- The output payload carried by a UTXO: a plain secp256k1 transfer output,
a mint output, or a platformvm StakeableLockOut wrapping an inner output. -/
inductive TxOut where
  | transfer (amt : Nat) (owners : OutputOwners)
  | mint (owners : OutputOwners)
  | stakeableLock (locktime : Nat) (inner : TxOut)
  deriving DecidableEq, Repr

/-- The (transaction ID, output index) source of a UTXO (djtx.UTXOID). -/
structure UTXOID where
  txID : List Nat
  outputIndex : Nat
  deriving DecidableEq, Repr

/-- djtx.UTXO: source identifier, asset identifier and output payload. -/
structure UTXO where
  utxoID : UTXOID
  assetID : Nat
  out : TxOut
  deriving DecidableEq, Repr

/-- secp256k1fx.TransferInput: the amount an input releases plus the
signature-index list satisfying the spent output's ownership spec. -/
structure TransferInput where
  amt : Nat
  sigIndices : List Nat
  deriving DecidableEq, Repr

/-- djtx.TransferableInput: the consumed UTXO's source and asset plus the
transfer input built for it. -/
structure TransferableInput where
  utxoID : UTXOID
  assetID : Nat
  inp : TransferInput
  deriving DecidableEq, Repr

/-- djtx.TransferableOutput: asset plus output payload. -/
structure TransferableOutput where
  assetID : Nat
  out : TxOut
  deriving DecidableEq, Repr

/-- Loop body of HardKey.match (part_001 lines 148-153): walk the address
list with its position index, collecting positions whose address equals the
key's address, until `need` more signatures are no longer required. -/
def matchSigsAux (kaddr : Nat) : List Nat → Nat → Nat → List Nat
  | [], _, _ => []
  | a :: rest, i, need =>
    if need = 0 then []
    else if a = kaddr then i :: matchSigsAux kaddr rest (i + 1) (need - 1)
    else matchSigsAux kaddr rest (i + 1) need

/-- HardKey.match (part_001 lines 144-155): no match while the lock time is
in the future; otherwise collect ascending address positions matching the
key's single address and succeed iff exactly `threshold` were found. -/
def hkMatch (kaddr : Nat) (o : OutputOwners) (time : Nat) : List Nat × Bool :=
  if time < o.locktime then ([], false)
  else
    let sigs := matchSigsAux kaddr o.addrs 0 o.threshold
    (sigs, sigs.length == o.threshold)

/-- Modelled from the spec: the Key interface's `Match` (key.go lines 30-31)
additionally returns the signer address list alongside the signature
indices; the implementation of that 3-result variant is not among the
source files (the src SoftKey/HardKey predate it), so the signer list is
the key's single address once per matched signature index, per the spec's
single-identity key capability. -/
def keyMatch (kaddr : Nat) (o : OutputOwners) (time : Nat) :
    List Nat × List Nat × Bool :=
  let m := hkMatch kaddr o time
  (m.1, m.1.map (fun _ => kaddr), m.2)

/-- Error outcomes of the per-UTXO spend attempt (key.go lines 19-22 and
part_001 line 140). -/
inductive SpendErr where
  | cantSpend
  | invalidType
  | unexpectedType
  deriving DecidableEq, Repr

/-- Result shapes of HardKey.lspend: a mint-style secp256k1fx.Input (bare
signature indices) or a secp256k1fx.TransferInput. -/
inductive SpentVal where
  | minted (sigIndices : List Nat)
  | transferred (inp : TransferInput)
  deriving DecidableEq, Repr

/-- HardKey.lspend (part_001 lines 120-141): build an input for a mint or
transfer output the key can match; any other output kind is an unexpected
type. -/
def lspend (kaddr : Nat) (out : TxOut) (time : Nat) : Except SpendErr SpentVal :=
  match out with
  | .mint o =>
    match hkMatch kaddr o time with
    | (sigIndices, true) => .ok (.minted sigIndices)
    | (_, false) => .error .cantSpend
  | .transfer amt o =>
    match hkMatch kaddr o time with
    | (sigIndices, true) => .ok (.transferred ⟨amt, sigIndices⟩)
    | (_, false) => .error .cantSpend
  | .stakeableLock _ _ => .error .unexpectedType

/-- HardKey.spend (part_001 lines 101-117): the produced value must be a
djtx.TransferableIn; a mint-style secp256k1fx.Input carries no amount and
fails that interface cast, so only transfer inputs survive. -/
def spendIn (kaddr : Nat) (out : TxOut) (time : Nat) : Except SpendErr TransferInput :=
  match lspend kaddr out time with
  | .error e => .error e
  | .ok (.minted _) => .error .invalidType
  | .ok (.transferred i) => .ok i

/-- Strict lexicographic order on byte lists, as bytes.Compare reports -1. -/
def bytesLt : List Nat → List Nat → Bool
  | [], [] => false
  | [], _ :: _ => true
  | _ :: _, [] => false
  | a :: as, b :: bs => if a < b then true else if b < a then false else bytesLt as bs

/-- innerSortTransferableInputsWithSigners.Less (key.go lines 99-111):
compare the inputs' UTXO sources, transaction ID bytes first, then output
index. -/
def inputLt (x y : TransferableInput) : Bool :=
  if bytesLt x.utxoID.txID y.utxoID.txID then true
  else if bytesLt y.utxoID.txID x.utxoID.txID then false
  else decide (x.utxoID.outputIndex < y.utxoID.outputIndex)

/-- Non-strict order induced by the Less comparator on coupled
(input, signer) pairs: a may come before b when b's input is not strictly
below a's. -/
def inputPairLe (a b : TransferableInput × List Nat) : Prop :=
  inputLt b.1 a.1 = false

instance : DecidableRel inputPairLe :=
  fun a b => instDecidableEqBool (inputLt b.1 a.1) false

/-- Non-strict order induced by the Less comparator on inputs alone. -/
def inputLe (x y : TransferableInput) : Prop := inputLt y x = false

instance : DecidableRel inputLe :=
  fun x y => instDecidableEqBool (inputLt y x) false

/-- SortTransferableInputsWithSigners (key.go lines 113-124): Go's
sort.Sort swaps the input slice and the signer slice together, so the sort
is modelled as one deterministic comparator sort over the zipped pairs,
keyed by the input comparator alone. -/
def SortTransferableInputsWithSigners (ins : List TransferableInput)
    (signers : List (List Nat)) : List TransferableInput × List (List Nat) :=
  let z := (ins.zip signers).insertionSort inputPairLe
  (z.map Prod.fst, z.map Prod.snd)

/-- djtx.SortTransferableInputs (the library sort called at the end of
Spends, soft_key.go line 193): same (transaction ID, output index) key. -/
def sortTransferableInputs (ins : List TransferableInput) : List TransferableInput :=
  ins.insertionSort inputLe

/-- Functional options consumed by Spends (key.go lines 47-79): the spend
time, an optional target amount (0 when absent) and an optional fee
deduction. -/
structure SpOp where
  time : Nat
  targetAmount : Nat
  feeDeduct : Nat
  deriving DecidableEq, Repr

/-- Selection loop of SoftKey.Spends / HardKey.Spends (soft_key.go lines
176-192, part_001 lines 79-95): walk the UTXOs in order, skip the ones the
key cannot spend, accumulate amounts, and stop early once the total
strictly exceeds targetAmount + feeDeduct — but only when a positive
target was given. -/
def SpendsAux (kaddr : Nat) (op : SpOp) : List UTXO → Nat → Nat × List TransferableInput
  | [], total => (total, [])
  | u :: rest, total =>
    match spendIn kaddr u.out op.time with
    | .error _ => SpendsAux kaddr op rest total
    | .ok i =>
      let total' := total + i.amt
      let tin : TransferableInput := ⟨u.utxoID, u.assetID, i⟩
      if 0 < op.targetAmount ∧ op.targetAmount + op.feeDeduct < total'
      then (total', [tin])
      else
        let r := SpendsAux kaddr op rest total'
        (r.1, tin :: r.2)

/-- SoftKey.Spends / HardKey.Spends (soft_key.go lines 169-196, part_001
lines 72-99): run the selection loop from zero, then sort the produced
inputs by UTXO source. -/
def Spends (kaddr : Nat) (outputs : List UTXO) (op : SpOp) : Nat × List TransferableInput :=
  let r := SpendsAux kaddr op outputs 0
  (r.1, sortTransferableInputs r.2)

/-- Modelled from the spec: the Key interface's `Spends` (key.go lines
38-42) also returns one signer set per produced input, and the spec's
post-condition requires inputs and signer sets to be permuted by one
coupled sort; the 3-result implementation is not among the source files.
The selection loop is the src 2-result loop; the signer set of an input is
the key's address once per signature index. -/
def Spends3Aux (kaddr : Nat) (op : SpOp) :
    List UTXO → Nat → Nat × List TransferableInput × List (List Nat)
  | [], total => (total, [], [])
  | u :: rest, total =>
    match spendIn kaddr u.out op.time with
    | .error _ => Spends3Aux kaddr op rest total
    | .ok i =>
      let total' := total + i.amt
      let tin : TransferableInput := ⟨u.utxoID, u.assetID, i⟩
      let sg := i.sigIndices.map (fun _ => kaddr)
      if 0 < op.targetAmount ∧ op.targetAmount + op.feeDeduct < total'
      then (total', [tin], [sg])
      else
        let r := Spends3Aux kaddr op rest total'
        (r.1, tin :: r.2.1, sg :: r.2.2)

/-- Modelled from the spec: the signer-returning `Spends` of the Key
interface; selection loop as in src, followed by the coupled input/signer
sort. -/
def Spends3 (kaddr : Nat) (outputs : List UTXO) (op : SpOp) :
    Nat × List TransferableInput × List (List Nat) :=
  let r := Spends3Aux kaddr op outputs 0
  let s := SortTransferableInputsWithSigners r.2.1 r.2.2
  (r.1, s.1, s.2)

/-- Deterministic stand-in key for the codec-byte comparator under
djtx.SortTransferableOutputs (an external library sort over marshaled
bytes): a total lexicographic encoding of the output structure. -/
def encodeOwners (o : OutputOwners) : List Nat :=
  o.locktime :: o.threshold :: o.addrs

/-- Structural byte-like encoding of an output payload, tag first, used
only as a deterministic sort key. -/
def encodeOut : TxOut → List Nat
  | .transfer amt o => 7 :: amt :: encodeOwners o
  | .mint o => 6 :: encodeOwners o
  | .stakeableLock lk i => 22 :: lk :: encodeOut i

/-- Deterministic sort key of a transferable output. -/
def encodeTransferableOutput (t : TransferableOutput) : List Nat :=
  t.assetID :: encodeOut t.out

/-- Non-strict order on outputs induced by the encoded-byte comparator. -/
def outputLe (a b : TransferableOutput) : Prop :=
  bytesLt (encodeTransferableOutput b) (encodeTransferableOutput a) = false

instance : DecidableRel outputLe :=
  fun a b =>
    instDecidableEqBool (bytesLt (encodeTransferableOutput b) (encodeTransferableOutput a))
      false

/-- djtx.SortTransferableOutputs (called at part_004 lines 827-828),
modelled as a deterministic comparator sort over the structural encoding. -/
def SortTransferableOutputs (outs : List TransferableOutput) : List TransferableOutput :=
  outs.insertionSort outputLe

/-- The two post-condition failures of the coin selector (part_004 lines
32-33, 819-824). -/
inductive StakeErr where
  | insufficientBalanceForStakeAmount
  | insufficientBalanceForGasFee
  deriving DecidableEq, Repr

/-- Accumulator threaded through the two passes of stake: staked and burned
totals plus the four result lists, in build order. -/
structure StakeState where
  amountStaked : Nat
  amountBurned : Nat
  ins : List TransferableInput
  returnedOuts : List TransferableOutput
  stakedOuts : List TransferableOutput
  signers : List (List Nat)
  deriving DecidableEq, Repr

/-- The empty accumulator stake starts from (part_004 lines 637-650). -/
def emptyStakeState : StakeState := ⟨0, 0, [], [], [], []⟩

/-- What stake returns to its caller: the four lists plus the Go error
value (`none` on the success return, with all lists nil on the error
returns, exactly as part_004 lines 819-830 write them). -/
structure StakeResult where
  ins : List TransferableInput
  returnedOuts : List TransferableOutput
  stakedOuts : List TransferableOutput
  signers : List (List Nat)
  err : Option StakeErr
  deriving DecidableEq, Repr

/-- Pass 1 of stake (part_004 lines 650-730): only future-locked
StakeableLockOut outputs wrapping a secp256k1 transfer output are
eligible; stake min(still needed, input value), re-lock it with the
original lock parameters, return any leftover to the change address, and
stop once the target is reached. -/
def stakePass1 (kaddr assetID stakeAmt changeAddr now : Nat) :
    List UTXO → StakeState → StakeState
  | [], st => st
  | u :: rest, st =>
    if stakeAmt ≤ st.amountStaked then st
    else if u.assetID ≠ assetID then stakePass1 kaddr assetID stakeAmt changeAddr now rest st
    else
      match u.out with
      | .stakeableLock lk innerOut =>
        if lk ≤ now then stakePass1 kaddr assetID stakeAmt changeAddr now rest st
        else
          match innerOut with
          | .transfer _ iowners =>
            let sp := Spends3 kaddr [u] ⟨now, 0, 0⟩
            match sp.2.1 with
            | [] => stakePass1 kaddr assetID stakeAmt changeAddr now rest st
            | tin :: _ =>
              let remainingValue := tin.inp.amt
              let amountToStake := min (stakeAmt - st.amountStaked) remainingValue
              let remaining2 := remainingValue - amountToStake
              let st1 := { st with
                amountStaked := st.amountStaked + amountToStake,
                stakedOuts := st.stakedOuts ++
                  [TransferableOutput.mk assetID
                    (.stakeableLock lk (.transfer amountToStake iowners))] }
              let st2 :=
                if 0 < remaining2 then
                  { st1 with returnedOuts := st1.returnedOuts ++
                    [TransferableOutput.mk assetID
                      (.transfer remaining2 ⟨0, 1, [changeAddr]⟩)] }
                else st1
              let st3 := { st2 with
                ins := st2.ins ++ [tin],
                signers := st2.signers ++ sp.2.2 }
              stakePass1 kaddr assetID stakeAmt changeAddr now rest st3
          | _ => stakePass1 kaddr assetID stakeAmt changeAddr now rest st
      | _ => stakePass1 kaddr assetID stakeAmt changeAddr now rest st

/-- One consumed UTXO of pass 2 (part_004 lines 756-817): spend it, burn
min(fee still needed, value), then stake min(stake still needed,
remainder), then return any further remainder to the change address. -/
def stakePass2Step (kaddr assetID stakeAmt fee changeAddr now : Nat)
    (u : UTXO) (st : StakeState) : StakeState :=
  let sp := Spends3 kaddr [u] ⟨now, 0, 0⟩
  match sp.2.1 with
  | [] => st
  | tin :: _ =>
    let remainingValue := tin.inp.amt
    let amountToBurn := min (fee - st.amountBurned) remainingValue
    let rv1 := remainingValue - amountToBurn
    let amountToStake := min (stakeAmt - st.amountStaked) rv1
    let rv2 := rv1 - amountToStake
    let st1 := { st with
      amountBurned := st.amountBurned + amountToBurn,
      amountStaked := st.amountStaked + amountToStake }
    let st2 :=
      if 0 < amountToStake then
        { st1 with stakedOuts := st1.stakedOuts ++
          [TransferableOutput.mk assetID
            (.transfer amountToStake ⟨0, 1, [changeAddr]⟩)] }
      else st1
    let st3 :=
      if 0 < rv2 then
        { st2 with returnedOuts := st2.returnedOuts ++
          [TransferableOutput.mk assetID (.transfer rv2 ⟨0, 1, [changeAddr]⟩)] }
      else st2
    { st3 with
      ins := st3.ins ++ [tin],
      signers := st3.signers ++ sp.2.2 }

/-- Pass 2 of stake (part_004 lines 733-817): only outputs not under a
future lock are eligible; an elapsed StakeableLockOut is first unwrapped to
its inner output BY OVERWRITING the UTXO's output field in place (line
754), which is why this pass also returns the final UTXO list. The loop
stops once both the stake and the fee requirements are met. -/
def stakePass2 (kaddr assetID stakeAmt fee changeAddr now : Nat) :
    List UTXO → StakeState → StakeState × List UTXO
  | [], st => (st, [])
  | u :: rest, st =>
    if stakeAmt ≤ st.amountStaked ∧ fee ≤ st.amountBurned then (st, u :: rest)
    else if u.assetID ≠ assetID then
      let r := stakePass2 kaddr assetID stakeAmt fee changeAddr now rest st
      (r.1, u :: r.2)
    else
      match u.out with
      | .stakeableLock lk innerOut =>
        if now < lk then
          let r := stakePass2 kaddr assetID stakeAmt fee changeAddr now rest st
          (r.1, u :: r.2)
        else
          let u2 : UTXO := { u with out := innerOut }
          let st' := stakePass2Step kaddr assetID stakeAmt fee changeAddr now u2 st
          let r := stakePass2 kaddr assetID stakeAmt fee changeAddr now rest st'
          (r.1, u2 :: r.2)
      | _ =>
        let st' := stakePass2Step kaddr assetID stakeAmt fee changeAddr now u st
        let r := stakePass2 kaddr assetID stakeAmt fee changeAddr now rest st'
        (r.1, u :: r.2)

/-- p.stake (part_004 lines 614-831) over an already-parsed UTXO snapshot:
pass 1 (staking from future-locked outputs), pass 2 (fee burn plus any
staking shortfall from unlocked outputs), the two partial-progress
post-condition checks, then the coupled input/signer sort and the two
output sorts. The second component is the final UTXO snapshot, returned so
the in-place rewrite of pass 2 is observable. -/
def stake (kaddr assetID changeAddr now stakeAmt fee : Nat) (utxos : List UTXO) :
    StakeResult × List UTXO :=
  let st1 := stakePass1 kaddr assetID stakeAmt changeAddr now utxos emptyStakeState
  let r2 := stakePass2 kaddr assetID stakeAmt fee changeAddr now utxos st1
  let st2 := r2.1
  if 0 < st2.amountStaked ∧ st2.amountStaked < stakeAmt then
    (⟨[], [], [], [], some .insufficientBalanceForStakeAmount⟩, r2.2)
  else if 0 < st2.amountBurned ∧ st2.amountBurned < fee then
    (⟨[], [], [], [], some .insufficientBalanceForGasFee⟩, r2.2)
  else
    let s := SortTransferableInputsWithSigners st2.ins st2.signers
    (⟨s.1, SortTransferableOutputs st2.returnedOuts,
      SortTransferableOutputs st2.stakedOuts, s.2, none⟩, r2.2)

/-- Amount carried by an output payload (the value a staked or returned
output accounts for; a mint output carries none). -/
def outAmt : TxOut → Nat
  | .transfer amt _ => amt
  | .mint _ => 0
  | .stakeableLock _ i => outAmt i

/-- Sum of the amounts of a transferable-output list. -/
def sumOuts (l : List TransferableOutput) : Nat :=
  (l.map (fun t => outAmt t.out)).sum

/-- Sum of the amounts released by a transferable-input list. -/
def sumIns (l : List TransferableInput) : Nat :=
  (l.map (fun t => t.inp.amt)).sum

/-- The value pass 2 can extract from one UTXO: zero unless the asset
matches and the (possibly unwrapped) output is spendable by the key at
`now`; otherwise the transfer amount. -/
def pass2SpendAmt (kaddr assetID now : Nat) (u : UTXO) : Nat :=
  if u.assetID ≠ assetID then 0
  else
    match u.out with
    | .stakeableLock lk innerOut =>
      if now < lk then 0
      else
        match spendIn kaddr innerOut now with
        | .ok i => i.amt
        | .error _ => 0
    | o =>
      match spendIn kaddr o now with
      | .ok i => i.amt
      | .error _ => 0

/-- Combined value of a UTXO set spendable by the key for fee burning:
unlocked outputs only, matching asset, spendable at `now`. -/
def spendableTotal (kaddr assetID now : Nat) (utxos : List UTXO) : Nat :=
  (utxos.map (pass2SpendAmt kaddr assetID now)).sum

/-- Error values of the key-file loader (soft_key.go lines 26-31), plus
the distinct externally-produced errors LoadSoft passes through: the hex
decode error, the CB58 decode error and the secp256k1 key-construction
error. -/
inductive KeyErr where
  | invalidPrivateKey
  | invalidPrivateKeyLen
  | invalidPrivateKeyEnding
  | invalidPrivateKeyEncoding
  | hexDecodeErr
  | cb58DecodeErr
  | toPrivateKeyErr
  deriving DecidableEq, Repr

/-- readASCII (soft_key.go lines 262-273) on an in-memory byte stream:
fill up to `n` bytes, stopping early on end of stream or on a byte below
0x21 (which is consumed but not collected); returns the collected bytes
and the rest of the stream. -/
def readASCII : Nat → List Nat → List Nat × List Nat
  | 0, s => ([], s)
  | _ + 1, [] => ([], [])
  | n + 1, b :: rest =>
    if b < 0x21 then ([], rest)
    else
      let r := readASCII n rest
      (b :: r.1, r.2)

/-- Loop of checkKeyFileEnd (soft_key.go lines 278-292) with its running
index: any byte other than newline or carriage return is an invalid
ending, and more than fileEndLimit + 1 = 2 line-ending bytes is an invalid
length. -/
def checkKeyFileEndAux : List Nat → Nat → Option KeyErr
  | [], _ => none
  | b :: rest, idx =>
    if b ≠ 10 ∧ b ≠ 13 then some .invalidPrivateKeyEnding
    else if 1 < idx then some .invalidPrivateKeyLen
    else checkKeyFileEndAux rest (idx + 1)

/-- checkKeyFileEnd (soft_key.go lines 278-292). -/
def checkKeyFileEnd (s : List Nat) : Option KeyErr :=
  checkKeyFileEndAux s 0

/-- Value of an ASCII hex digit, as encoding/hex accepts them. -/
def hexDigitVal (c : Nat) : Option Nat :=
  if 48 ≤ c ∧ c ≤ 57 then some (c - 48)
  else if 97 ≤ c ∧ c ≤ 102 then some (c - 87)
  else if 65 ≤ c ∧ c ≤ 70 then some (c - 55)
  else none

/-- hex.DecodeString: pairs of hex digits to bytes; odd length or a
non-hex byte is an error (collapsed to `none`). -/
def hexDecode : List Nat → Option (List Nat)
  | [] => some []
  | [_] => none
  | a :: b :: rest =>
    match hexDigitVal a, hexDigitVal b, hexDecode rest with
    | some x, some y, some tail => some ((x * 16 + y) :: tail)
    | _, _, _ => none

/-- The ASCII bytes of the "PrivateKey-" marker (soft_key.go line 46). -/
def pfxPK : List Nat := [80, 114, 105, 118, 97, 116, 101, 75, 101, 121, 45]

/-- strings.Replace(s, pat, rep, 1) for a non-empty pattern: replace the
first occurrence of `pat`, if any. -/
def replaceFirst (pat rep : List Nat) : List Nat → List Nat
  | [] => []
  | c :: rest =>
    if pat.isPrefixOf (c :: rest) then rep ++ (c :: rest).drop pat.length
    else c :: replaceFirst pat rep rest

/-- External cryptographic collaborators of the key loader, as opaque
functions: the CB58 checksummed decode and encode
(formatting.Decode/EncodeWithChecksum) and secp256k1 private-key
construction (keyFactory.ToPrivateKey), plus the fresh key NewSoft
generates when given no material. A decode `none` models any
formatting.Decode failure (the concrete inputs used below contain bytes
outside the base58 alphabet or lack a valid checksum). -/
structure ExtCrypto where
  cb58Decode : List Nat → Option (List Nat)
  cb58Encode : List Nat → List Nat
  toPrivateKey : List Nat → Option (List Nat)
  freshKey : List Nat

/-- decodePrivateKey (soft_key.go lines 303-318): drop the first
"PrivateKey-" occurrence, CB58-decode, build the key. -/
def decodePrivateKey (ext : ExtCrypto) (enc : List Nat) : Except KeyErr (List Nat) :=
  let rawPk := replaceFirst pfxPK [] enc
  match ext.cb58Decode rawPk with
  | none => .error .cb58DecodeErr
  | some skBytes =>
    match ext.toPrivateKey skBytes with
    | none => .error .toPrivateKeyErr
    | some pk => .ok pk

/-- NewSoft as invoked with WithPrivateKeyEncoded (soft_key.go lines
82-144, first attempt of LoadSoft): a non-empty encoded string is decoded
and must re-encode to itself; an empty one makes NewSoft generate a fresh
key. -/
def newSoftEncoded (ext : ExtCrypto) (kb : List Nat) : Except KeyErr (List Nat) :=
  if 0 < kb.length then
    match decodePrivateKey ext kb with
    | .error e => .error e
    | .ok pk =>
      if pfxPK ++ ext.cb58Encode pk ≠ kb then .error .invalidPrivateKeyEncoding
      else .ok pk
  else .ok ext.freshKey

/-- Length of a raw hex-encoded private key (soft_key.go line 47). -/
def privKeySize : Nat := 64

/-- LoadSoft (soft_key.go lines 219-258) over in-memory file bytes: first
try the file as an encoded key; otherwise read exactly 64 printable bytes,
require only up to two trailing line endings, hex-decode, and build the
key (the final NewSoft call with the constructed key succeeds). -/
def LoadSoft (ext : ExtCrypto) (kb : List Nat) : Except KeyErr (List Nat) :=
  match newSoftEncoded ext kb with
  | .ok k => .ok k
  | .error _ =>
    let r := readASCII privKeySize kb
    if r.1.length ≠ privKeySize then .error .invalidPrivateKeyLen
    else
      match checkKeyFileEnd r.2 with
      | some e => .error e
      | none =>
        match hexDecode r.1 with
        | none => .error .hexDecodeErr
        | some skBytes =>
          match ext.toPrivateKey skBytes with
          | none => .error .toPrivateKeyErr
          | some pk => .ok pk

/-- A JSON-shaped value inside a validator record (the Go code reads
map[string]interface{} entries and type-asserts them to string). -/
inductive JVal where
  | jstr (s : String)
  | jnum (n : Int)
  | jother
  deriving DecidableEq, Repr

/-- One element of the GetCurrentValidators reply: a JSON object (field
list) or some other shape that fails the map type assertion. -/
inductive RawVal where
  | vmap (fields : List (String × JVal))
  | vother
  deriving DecidableEq, Repr

/-- Failures of p.GetValidator (part_004 lines 188-247): a propagated
network error, the validator-not-found sentinel, malformed validator data,
or a strconv.ParseInt failure. -/
inductive GVErr where
  | netErr (code : Nat)
  | validatorNotFound
  | invalidValidatorData
  | parseIntErr
  deriving DecidableEq, Repr

/-- Go map lookup on a field list: first binding of the key wins. -/
def lookupField : List (String × JVal) → String → Option JVal
  | [], _ => none
  | (k, v) :: rest, key => if k = key then some v else lookupField rest key

/-- The search loop of GetValidator (part_004 lines 207-220): fail on a
record that is not a map or whose nodeID field is not a string, pick the
first record whose nodeID equals the target. -/
def findValidator (target : String) : List RawVal → Except GVErr (Option (List (String × JVal)))
  | [] => .ok none
  | v :: rest =>
    match v with
    | .vother => .error .invalidValidatorData
    | .vmap fields =>
      match lookupField fields "nodeID" with
      | some (.jstr s) =>
        if s = target then .ok (some fields) else findValidator target rest
      | _ => .error .invalidValidatorData

/-- Digit-folding loop of a base-10 strconv parse. -/
def decDigitsAux : List Char → Nat → Option Nat
  | [], acc => some acc
  | c :: rest, acc =>
    if 48 ≤ c.toNat ∧ c.toNat ≤ 57 then decDigitsAux rest (acc * 10 + (c.toNat - 48))
    else none

/-- strconv.ParseInt(s, 10, 64): optional sign, at least one digit, all
base-10 digits, result within the signed 64-bit range. -/
def parseInt64 (s : String) : Option Int :=
  match s.data with
  | [] => none
  | c :: rest =>
    let signDigits : Bool × List Char :=
      if c = '-' then (true, rest)
      else if c = '+' then (false, rest) else (false, c :: rest)
    match signDigits.2 with
    | [] => none
    | _ =>
      match decDigitsAux signDigits.2 0 with
      | none => none
      | some n =>
        if signDigits.1 then (if n ≤ 2 ^ 63 then some (-(n : Int)) else none)
        else (if n < 2 ^ 63 then some (n : Int) else none)

/-- p.GetValidator (part_004 lines 188-247) applied to one
GetCurrentValidators reply: propagate a network error, report not-found on
an empty reply or no matching record, otherwise require string startTime
and endTime fields that parse as decimal epoch seconds. -/
def getValidator (vsResp : Except Nat (List RawVal)) (target : String) :
    Except GVErr (Int × Int) :=
  match vsResp with
  | .error code => .error (.netErr code)
  | .ok vs =>
    if vs.length < 1 then .error .validatorNotFound
    else
      match findValidator target vs with
      | .error e => .error e
      | .ok none => .error .validatorNotFound
      | .ok (some validator) =>
        match lookupField validator "startTime" with
        | some (.jstr d) =>
          match parseInt64 d with
          | none => .error .parseIntErr
          | some dvs =>
            match lookupField validator "endTime" with
            | some (.jstr d2) =>
              match parseInt64 d2 with
              | none => .error .parseIntErr
              | some dve => .ok (dvs, dve)
            | _ => .error .invalidValidatorData
        | _ => .error .invalidValidatorData

/-- Shape of the fetched subnet-creation transaction as authorize
inspects it (part_004 lines 839-857): wrong transaction type, owner field
of an unknown shape, or the owner ownership spec. -/
inductive RawSubnetTx where
  | notCreateSubnetTx
  | ownersUnknownShape
  | createSubnetTx (owner : OutputOwners)
  deriving DecidableEq, Repr

/-- The external collaborators of AddSubnetValidator, one field per remote
or device interaction, in the order the source consumes them. The
GetCurrentValidators reply is keyed by subnet ID with 0 standing for both
ids.Empty and the primary network ID (which is the empty ID in the
source's constants). -/
structure ASVEnv where
  validatorsOf : Nat → Except Nat (List RawVal)
  pfxStr : Nat → String
  txFee : Except Nat Nat
  utxos : Except Nat (List UTXO)
  subnetTx : Except Nat RawSubnetTx
  signOk : Option Nat
  issueTx : Except Nat Nat
  pollTx : Except Nat Nat

/-- p.GetValidator's subnet-ID defaulting (part_004 lines 189-193): an
empty requested subnet ID means the primary network, whose ID is itself
the empty ID. -/
def getValidatorFor (validatorsOf : Nat → Except Nat (List RawVal))
    (pfxStr : Nat → String) (rsubnetID nodeID : Nat) : Except GVErr (Int × Int) :=
  let subnetID := if rsubnetID = 0 then 0 else rsubnetID
  getValidator (validatorsOf subnetID) (pfxStr nodeID)

/-- Client-level error values of AddSubnetValidator (part_004 lines
31-48), with the annotated-wrap of a primary-lookup failure kept as a
distinct constructor carrying the wrapped error. -/
inductive CErr where
  | emptyID
  | alreadySubnetValidator
  | notValidatingPrimaryNetwork
  | primaryLookup (e : GVErr)
  | invalidSubnetValidatePeriod
  | netErr (code : Nat)
  | stakeFailed (e : StakeErr)
  | wrongTxType
  | unknownOwners
  | cantSign
  | signFailed (code : Nat)
  | issueFailed (code : Nat)
  | pollFailed (code : Nat)
  deriving DecidableEq, Repr

/-- The observable external interactions of one AddSubnetValidator call,
in order. -/
inductive Eff where
  | getValidators (subnetID : Nat)
  | getTxFee
  | getUTXOs
  | getSubnetTx
  | sign
  | issueTx
  | pollTx
  deriving DecidableEq, Repr

/-- p.authorize (part_004 lines 834-864): fetch the subnet's creation
transaction, require the subnet-creation type and the known owner shape,
then Match the key against the owner spec at the current time. -/
def authorize (env : ASVEnv) (kaddr now : Nat) : Except CErr (List Nat × List Nat) :=
  match env.subnetTx with
  | .error c => .error (.netErr c)
  | .ok .notCreateSubnetTx => .error .wrongTxType
  | .ok .ownersUnknownShape => .error .unknownOwners
  | .ok (.createSubnetTx owner) =>
    match keyMatch kaddr owner now with
    | (indices, sgs, true) => .ok (indices, sgs)
    | (_, _, false) => .error .cantSign

/-- p.AddSubnetValidator (part_004 lines 250-352) with an effect trace:
empty-ID guards, the two validator lookups and the window checks, then
fee fetch, UTXO fetch, coin selection (stake with target 0), subnet
authorization, signing, submission and polling. The returned trace lists
the external interactions that happened before the call returned. -/
def AddSubnetValidator (env : ASVEnv) (kaddr assetID subnetID nodeID : Nat)
    (startT endT : Int) (now : Nat) : Except CErr Nat × List Eff :=
  if subnetID = 0 then (.error .emptyID, [])
  else if nodeID = 0 then (.error .emptyID, [])
  else
    let r1 := getValidatorFor env.validatorsOf env.pfxStr subnetID nodeID
    let t1 : List Eff := [.getValidators subnetID]
    match r1 with
    | .error .validatorNotFound =>
      let r2 := getValidatorFor env.validatorsOf env.pfxStr 0 nodeID
      let t2 := t1 ++ [.getValidators 0]
      match r2 with
      | .error .validatorNotFound => (.error .notValidatingPrimaryNetwork, t2)
      | .error e => (.error (.primaryLookup e), t2)
      | .ok (validateStart, validateEnd) =>
        if startT < validateStart then (.error .invalidSubnetValidatePeriod, t2)
        else if validateEnd < endT then (.error .invalidSubnetValidatePeriod, t2)
        else
          match env.txFee with
          | .error c => (.error (.netErr c), t2 ++ [.getTxFee])
          | .ok fee =>
            let t3 := t2 ++ [.getTxFee]
            match env.utxos with
            | .error c => (.error (.netErr c), t3 ++ [.getUTXOs])
            | .ok us =>
              let t4 := t3 ++ [.getUTXOs]
              let sres := (stake kaddr assetID kaddr now 0 fee us).1
              match sres.err with
              | some e => (.error (.stakeFailed e), t4)
              | none =>
                match authorize env kaddr now with
                | .error e => (.error e, t4 ++ [.getSubnetTx])
                | .ok _ =>
                  let t5 := t4 ++ [.getSubnetTx]
                  match env.signOk with
                  | some c => (.error (.signFailed c), t5 ++ [.sign])
                  | none =>
                    match env.issueTx with
                    | .error c => (.error (.issueFailed c), t5 ++ [.sign, .issueTx])
                    | .ok _ =>
                      match env.pollTx with
                      | .error c => (.error (.pollFailed c), t5 ++ [.sign, .issueTx, .pollTx])
                      | .ok took => (.ok took, t5 ++ [.sign, .issueTx, .pollTx])
    | _ => (.error .alreadySubnetValidator, t1)

/-- secp256k1fx.Credential: a list of fixed-size signature byte arrays. -/
structure Cred where
  sigs : List (List Nat)
  deriving DecidableEq, Repr

/-- platformvm.Tx as HardKey.Sign manipulates it: the opaque unsigned
payload, the credential list, and the three fields pTx.Initialize sets
(unsigned bytes, signed bytes, and the content-derived ID). -/
structure PTx where
  utx : Nat
  creds : List Cred
  unsignedBytes : List Nat
  signedBytes : List Nat
  txID : List Nat
  deriving DecidableEq, Repr

/-- External codec and hashing used by HardKey.Sign: marshal of the
unsigned payload, marshal of the whole transaction (payload plus
credential list), and ComputeHash256 (which Initialize also applies to
the signed bytes to derive the ID). -/
structure SignEnv where
  marshalUnsigned : Nat → Option (List Nat)
  marshalSigned : Nat → List Cred → Option (List Nat)
  hash256 : List Nat → List Nat

/-- The ledger device boundary: SignHash takes the hash and a list of
derivation paths and returns one signature per path, or a device error. -/
structure LedgerDevice where
  signHashFn : List Nat → List (List Nat) → Except Nat (List (List Nat))

/-- Failures of HardKey.Sign (part_001 lines 160-188): the two marshal
failures and the device failure. -/
inductive SignErr where
  | marshalUnsignedErr
  | deviceErr (code : Nat)
  | marshalSignedErr
  deriving DecidableEq, Repr

/-- crypto.SECP256K1RSigLen. -/
def sigLen : Nat := 65

/-- Index 0 of the device's signature list (Go indexes sig[0]; the device
contract returns one signature per requested path). -/
def headOrNil : List (List Nat) → List Nat
  | [] => []
  | x :: _ => x

/-- Go's copy into a zeroed fixed-size array: at most `n` source bytes,
zero-padded. -/
def copyFixed (n : Nat) (src : List Nat) : List Nat :=
  src.take n ++ List.replicate (n - src.length) 0

/-- HardKey.Sign (part_001 lines 160-188): marshal the unsigned payload,
hash it, call the device ONCE with the single (key-index 0, account-index)
path, copy the returned signature into one credential, append that same
credential once per required signature, then marshal the signed
transaction and Initialize it (signed bytes plus content ID). The result
keeps the Go in-place mutation visible: the possibly-updated transaction
is returned along with the error value and the trace of (hash, paths)
device calls. -/
def hardSign (env : SignEnv) (dev : LedgerDevice) (accountIndex : Nat)
    (tx : PTx) (sigs : Nat) :
    Option SignErr × PTx × List (List Nat × List (List Nat)) :=
  match env.marshalUnsigned tx.utx with
  | none => (some .marshalUnsignedErr, tx, [])
  | some ub =>
    let h := env.hash256 ub
    let paths : List (List Nat) := [[0, accountIndex]]
    match dev.signHashFn h paths with
    | .error c => (some (.deviceErr c), tx, [(h, paths)])
    | .ok sigArr =>
      let cred : Cred := ⟨[copyFixed sigLen (headOrNil sigArr)]⟩
      let tx1 := { tx with creds := tx.creds ++ List.replicate sigs cred }
      match env.marshalSigned tx1.utx tx1.creds with
      | none => (some .marshalSignedErr, tx1, [(h, paths)])
      | some sb =>
        (none,
         { tx1 with unsignedBytes := ub, signedBytes := sb, txID := env.hash256 sb },
         [(h, paths)])

/-- Inputs of Spends when no early stop can trigger: every spendable UTXO
of the list, in list order (the spec-side description of "attempts to
spend every UTXO"). -/
def spendAllInputs (kaddr now : Nat) (outputs : List UTXO) : List TransferableInput :=
  outputs.filterMap (fun u =>
    match spendIn kaddr u.out now with
    | .ok i => some ⟨u.utxoID, u.assetID, i⟩
    | .error _ => none)

/-- Total released by all spendable UTXOs of the list. -/
def spendAllTotal (kaddr now : Nat) (outputs : List UTXO) : Nat :=
  ((spendAllInputs kaddr now outputs).map (fun t => t.inp.amt)).sum

/-- How stake may leave one observed UTXO behind: untouched, or with its
output field rewritten in place from an elapsed stakeable-lock wrapper to
the wrapped inner output. -/
def unwrapRel (now : Nat) (u u2 : UTXO) : Prop :=
  u2 = u ∨ ∃ lk innerOut, u.out = .stakeableLock lk innerOut ∧ lk ≤ now ∧
    u2 = { u with out := innerOut }

/-- A concrete external-crypto record whose CB58 decode rejects everything:
it models formatting.Decode at exactly the inputs exercised in this file,
which contain bytes outside the base58 alphabet (such as 0x30 = the digit
zero or a newline) or no valid checksum; key construction accepts any
bytes. -/
def extNone : ExtCrypto := ⟨fun _ => none, fun _ => [], fun bs => some bs, []⟩

/-- Concrete codec/hash environment for exercising HardKey.Sign: marshals
are injective tag-and-append encodings, the hash prepends a tag. -/
def envSgn : SignEnv :=
  ⟨fun u => some [u], fun u cs => some (u :: [cs.length]), fun l => 9 :: l⟩

/-- A ledger device that answers every SignHash request with one fixed
signature. -/
def devSgn : LedgerDevice := ⟨fun _ _ => .ok [[1, 2, 3]]⟩

/-- A fresh unsigned transaction with no credentials attached. -/
def txSgn : PTx := ⟨5, [], [], [], []⟩

/-- Environment in which the subnet-validator lookup fails with a network
error (code 77) while every other interaction would succeed. -/
def env7 : ASVEnv :=
  ⟨fun sid => if sid = 0 then .ok [] else .error 77, fun _ => "n",
   .ok 1, .ok [], .ok .notCreateSubnetTx, none, .ok 0, .ok 0⟩

/-- Environment in which the node validates the primary network over epoch
window [100, 200] and no subnet. -/
def env8 : ASVEnv :=
  ⟨fun sid =>
    if sid = 0 then
      .ok [.vmap [("nodeID", .jstr "n9"), ("startTime", .jstr "100"),
                  ("endTime", .jstr "200")]]
    else .ok [],
   fun _ => "n9", .ok 1, .ok [], .ok .notCreateSubnetTx, none, .ok 0, .ok 0⟩

/-- Environment in which the node validates nothing at all. -/
def env8b : ASVEnv :=
  ⟨fun _ => .ok [], fun _ => "n9", .ok 1, .ok [], .ok .notCreateSubnetTx,
   none, .ok 0, .ok 0⟩

/-- Amount released if the key can spend this output at `now`, else 0. -/
def spendAmtOf (kaddr now : Nat) (o : TxOut) : Nat :=
  match spendIn kaddr o now with
  | .ok i => i.amt
  | .error _ => 0

/-- Invariant carried by the stake accumulator: conservation of value,
staked-output total agreeing with the staked counter, both counters capped
by their targets, and the input/signer lockstep. -/
def accInv (stakeAmt fee : Nat) (st : StakeState) : Prop :=
  sumIns st.ins = sumOuts st.returnedOuts + sumOuts st.stakedOuts + st.amountBurned ∧
  sumOuts st.stakedOuts = st.amountStaked ∧
  st.amountStaked ≤ stakeAmt ∧
  st.amountBurned ≤ fee ∧
  st.ins.length = st.signers.length

/-- One unlocked transfer output of 2500 owned by address 1 (the spec's
end-to-end scenario B input). -/
def utxoB : UTXO := ⟨⟨[1], 0⟩, 1, .transfer 2500 ⟨0, 1, [1]⟩⟩

/-- A UTXO under an elapsed stakeable lock (lock time 3), wrapping a
transfer output owned by address 9. -/
def utxoLocked : UTXO := ⟨⟨[1], 0⟩, 1, .stakeableLock 3 (.transfer 10 ⟨0, 1, [9]⟩)⟩

/-- One unlocked transfer output of 30 owned by address 1. -/
def utxoSmall : UTXO := ⟨⟨[2], 0⟩, 1, .transfer 30 ⟨0, 1, [1]⟩⟩

/-- A transferable input sourced at transaction ID [2]. -/
def tinA : TransferableInput := ⟨⟨[2], 0⟩, 1, ⟨5, [0]⟩⟩

/-- A transferable input sourced at transaction ID [1]. -/
def tinB : TransferableInput := ⟨⟨[1], 0⟩, 1, ⟨7, [0]⟩⟩

theorem bytesLt_irrefl (a : List Nat) : bytesLt a a = false := by
  induction a with
  | nil => rfl
  | cons x xs ih => simp [bytesLt, ih]

theorem bytesLt_asymm {a b : List Nat} (h : bytesLt a b = true) : bytesLt b a = false := by
  induction a generalizing b with
  | nil =>
    cases b with
    | nil => simp [bytesLt] at h
    | cons y ys => rfl
  | cons x xs ih =>
    cases b with
    | nil => simp [bytesLt] at h
    | cons y ys =>
      simp only [bytesLt] at h ⊢
      by_cases h1 : x < y
      · have h2 : ¬ y < x := Nat.lt_asymm h1
        simp [h1, h2]
      · by_cases h2 : y < x
        · simp [h1, h2] at h
        · simp only [if_neg h1, if_neg h2] at h ⊢
          exact ih h

theorem bytesLt_trans {a b c : List Nat} (h1 : bytesLt a b = true)
    (h2 : bytesLt b c = true) : bytesLt a c = true := by
  induction a generalizing b c with
  | nil =>
    cases c with
    | nil =>
      cases b with
      | nil => exact h2
      | cons y ys => simp [bytesLt] at h2
    | cons z zs => rfl
  | cons x xs ih =>
    cases b with
    | nil => simp [bytesLt] at h1
    | cons y ys =>
      cases c with
      | nil => simp [bytesLt] at h2
      | cons z zs =>
        simp only [bytesLt] at h1 h2 ⊢
        by_cases hxy : x < y
        · by_cases hyz : y < z
          · simp [Nat.lt_trans hxy hyz]
          · by_cases hzy : z < y
            · simp [hyz, hzy] at h2
            · have hyzeq : y = z := Nat.le_antisymm (Nat.le_of_not_lt hzy) (Nat.le_of_not_lt hyz)
              subst hyzeq
              simp [hxy]
        · by_cases hyx : y < x
          · simp [hxy, hyx] at h1
          · have hxyeq : x = y := Nat.le_antisymm (Nat.le_of_not_lt hyx) (Nat.le_of_not_lt hxy)
            subst hxyeq
            simp only [if_neg hxy, if_neg hyx] at h1
            by_cases hxz : x < z
            · simp [hxz]
            · by_cases hzx : z < x
              · simp [hxz, hzx] at h2
              · simp only [if_neg hxz, if_neg hzx] at h2 ⊢
                exact ih h1 h2

theorem bytesLt_eq_of_not {a b : List Nat} (h1 : bytesLt a b = false)
    (h2 : bytesLt b a = false) : a = b := by
  induction a generalizing b with
  | nil =>
    cases b with
    | nil => rfl
    | cons y ys => simp [bytesLt] at h1
  | cons x xs ih =>
    cases b with
    | nil => simp [bytesLt] at h2
    | cons y ys =>
      simp only [bytesLt] at h1 h2
      by_cases hxy : x < y
      · simp [hxy] at h1
      · by_cases hyx : y < x
        · simp [hxy, hyx] at h2
        · have hxyeq : x = y := Nat.le_antisymm (Nat.le_of_not_lt hyx) (Nat.le_of_not_lt hxy)
          subst hxyeq
          simp only [if_neg hxy] at h1 h2
          rw [ih h1 h2]

theorem bytesLt_not_trans {a b c : List Nat} (h1 : bytesLt b a = false)
    (h2 : bytesLt c b = false) : bytesLt c a = false := by
  by_contra hc
  have hca : bytesLt c a = true := by
    cases h : bytesLt c a with
    | false => exact absurd h hc
    | true => rfl
  by_cases hab : bytesLt a b = true
  · exact absurd (bytesLt_trans hca hab) (by simp [h2])
  · have hab' : bytesLt a b = false := by
      cases h : bytesLt a b with
      | false => rfl
      | true => exact absurd h hab
    have : a = b := bytesLt_eq_of_not hab' h1
    subst this
    exact absurd hca (by simp [h2])

theorem inputLt_iff {x y : TransferableInput} :
    inputLt x y = true ↔
      (bytesLt x.utxoID.txID y.utxoID.txID = true ∨
        (x.utxoID.txID = y.utxoID.txID ∧ x.utxoID.outputIndex < y.utxoID.outputIndex)) := by
  unfold inputLt
  by_cases h1 : bytesLt x.utxoID.txID y.utxoID.txID = true
  · simp [h1]
  · have h1' : bytesLt x.utxoID.txID y.utxoID.txID = false := by
      cases h : bytesLt x.utxoID.txID y.utxoID.txID with
      | false => rfl
      | true => exact absurd h h1
    by_cases h2 : bytesLt y.utxoID.txID x.utxoID.txID = true
    · simp only [h1', h2, Bool.false_eq_true, if_false, if_true]
      constructor
      · intro h
        exact absurd h (by simp)
      · rintro (h | ⟨he, _⟩)
        · simp [h1'] at h
        · rw [he] at h2
          simp [bytesLt_irrefl] at h2
    · have h2' : bytesLt y.utxoID.txID x.utxoID.txID = false := by
        cases h : bytesLt y.utxoID.txID x.utxoID.txID with
        | false => rfl
        | true => exact absurd h h2
      have he := bytesLt_eq_of_not h1' h2'
      simp [he, bytesLt_irrefl]

theorem inputLt_asymm {x y : TransferableInput} (h : inputLt x y = true) :
    inputLt y x = false := by
  by_contra hc
  have h2 : inputLt y x = true := by
    cases hv : inputLt y x with
    | false => exact absurd hv hc
    | true => rfl
  rcases inputLt_iff.mp h with ha | ⟨hea, hia⟩ <;>
    rcases inputLt_iff.mp h2 with hb | ⟨heb, hib⟩
  · exact absurd (bytesLt_trans ha hb) (by simp [bytesLt_irrefl])
  · rw [heb] at ha
    simp [bytesLt_irrefl] at ha
  · rw [hea] at hb
    simp [bytesLt_irrefl] at hb
  · omega

theorem inputLt_not_trans {x y z : TransferableInput} (h1 : inputLt y x = false)
    (h2 : inputLt z y = false) : inputLt z x = false := by
  by_contra hc
  have h3 : inputLt z x = true := by
    cases hv : inputLt z x with
    | false => exact absurd hv hc
    | true => rfl
  have n1 : ¬ (bytesLt y.utxoID.txID x.utxoID.txID = true ∨
      (y.utxoID.txID = x.utxoID.txID ∧ y.utxoID.outputIndex < x.utxoID.outputIndex)) := by
    intro hcontra
    exact absurd (inputLt_iff.mpr hcontra) (by simp [h1])
  have n2 : ¬ (bytesLt z.utxoID.txID y.utxoID.txID = true ∨
      (z.utxoID.txID = y.utxoID.txID ∧ z.utxoID.outputIndex < y.utxoID.outputIndex)) := by
    intro hcontra
    exact absurd (inputLt_iff.mpr hcontra) (by simp [h2])
  push_neg at n1 n2
  obtain ⟨n1b, n1i⟩ := n1
  obtain ⟨n2b, n2i⟩ := n2
  have n1b' : bytesLt y.utxoID.txID x.utxoID.txID = false := by
    cases hv : bytesLt y.utxoID.txID x.utxoID.txID with
    | false => rfl
    | true => exact absurd hv n1b
  have n2b' : bytesLt z.utxoID.txID y.utxoID.txID = false := by
    cases hv : bytesLt z.utxoID.txID y.utxoID.txID with
    | false => rfl
    | true => exact absurd hv n2b
  rcases inputLt_iff.mp h3 with hb | ⟨he, hi⟩
  · exact absurd hb (by simp [bytesLt_not_trans n1b' n2b'])
  · have hzy : z.utxoID.txID = y.utxoID.txID := by
      apply bytesLt_eq_of_not n2b'
      rw [← he] at n1b'
      exact n1b'
    have hyx : y.utxoID.txID = x.utxoID.txID := by rw [← hzy, he]
    have q1 := n1i hyx
    have q2 := n2i hzy
    omega

/-- List.Forall₂ of a reflexive relation holds along the diagonal. -/
theorem forall₂_self {α : Type} {R : α → α → Prop} (hr : ∀ x, R x x) :
    ∀ l : List α, List.Forall₂ R l l
  | [] => List.Forall₂.nil
  | x :: xs => List.Forall₂.cons (hr x) (forall₂_self hr xs)

theorem unwrapRel_refl (now : Nat) (u : UTXO) : unwrapRel now u u := Or.inl rfl

/-- C5: confirmed. `Match` against an ownership spec with threshold `T`
over `N` addresses succeeds iff the key's address occupies at least `T`
positions of the address list and the spec's lock time is not after the
spend time; on success the returned signature-index list has exactly `T`
entries, in ascending address-list-position order. -/
theorem match_spec (kaddr : Nat) (o : OutputOwners) (t : Nat) :
    ((hkMatch kaddr o t).2 = true ↔
      (o.threshold ≤ o.addrs.count kaddr ∧ o.locktime ≤ t)) ∧
    ((hkMatch kaddr o t).2 = true →
      (hkMatch kaddr o t).1.length = o.threshold ∧
        List.Pairwise (· < ·) (hkMatch kaddr o t).1) := by
  have hlen : ∀ (l : List Nat) (i need : Nat),
      (matchSigsAux kaddr l i need).length = min need (l.count kaddr) := by
    intro l
    induction l with
    | nil => intro i need; simp [matchSigsAux]
    | cons a rest ih =>
      intro i need
      by_cases h0 : need = 0
      · simp [matchSigsAux, h0]
      · by_cases ha : a = kaddr
        · obtain ⟨m, rfl⟩ : ∃ m, need = m + 1 := ⟨need - 1, by omega⟩
          simp only [matchSigsAux, if_neg h0, if_pos ha, List.length_cons, ih]
          rw [ha, List.count_cons_self]
          omega
        · have hb : (a == kaddr) = false := by simp [ha]
          simp only [matchSigsAux, if_neg h0, if_neg ha, ih]
          rw [List.count_cons, hb]
          simp
  have hlb : ∀ (l : List Nat) (i need x : Nat), x ∈ matchSigsAux kaddr l i need → i ≤ x := by
    intro l
    induction l with
    | nil => intro i need x hx; simp [matchSigsAux] at hx
    | cons a rest ih =>
      intro i need x hx
      by_cases h0 : need = 0
      · simp [matchSigsAux, h0] at hx
      · by_cases ha : a = kaddr
        · simp only [matchSigsAux, if_neg h0, if_pos ha, List.mem_cons] at hx
          rcases hx with rfl | hx
          · exact Nat.le_refl x
          · exact Nat.le_of_succ_le (ih (i + 1) (need - 1) x hx)
        · simp only [matchSigsAux, if_neg h0, if_neg ha] at hx
          exact Nat.le_of_succ_le (ih (i + 1) need x hx)
  have hpw : ∀ (l : List Nat) (i need : Nat),
      List.Pairwise (· < ·) (matchSigsAux kaddr l i need) := by
    intro l
    induction l with
    | nil => intro i need; simp [matchSigsAux]
    | cons a rest ih =>
      intro i need
      by_cases h0 : need = 0
      · simp [matchSigsAux, h0]
      · by_cases ha : a = kaddr
        · simp only [matchSigsAux, if_neg h0, if_pos ha]
          refine List.Pairwise.cons ?_ (ih (i + 1) (need - 1))
          intro x hx
          exact Nat.lt_of_succ_le (hlb rest (i + 1) (need - 1) x hx)
        · simp only [matchSigsAux, if_neg h0, if_neg ha]
          exact ih (i + 1) need
  constructor
  · unfold hkMatch
    by_cases hl : t < o.locktime
    · simp only [if_pos hl]
      constructor
      · intro h; exact absurd h (by simp)
      · rintro ⟨_, h2⟩; omega
    · simp only [if_neg hl, beq_iff_eq, hlen]
      constructor
      · intro h
        refine ⟨?_, by omega⟩
        omega
      · rintro ⟨h1, _⟩
        omega
  · intro hok
    unfold hkMatch at hok ⊢
    by_cases hl : t < o.locktime
    · simp [if_pos hl] at hok
    · simp only [if_neg hl, beq_iff_eq] at hok ⊢
      exact ⟨hok, hpw o.addrs 0 o.threshold⟩

/-- Witness for C5 at a concrete spec: threshold 2 over [7, 3, 7] for the
key address 7 at time 5 succeeds with the two ascending positions 0, 2. -/
theorem match_spec_witness :
    (hkMatch 7 ⟨0, 2, [7, 3, 7]⟩ 5).2 = true ∧
    (hkMatch 7 ⟨0, 2, [7, 3, 7]⟩ 5).1.length = 2 ∧
    List.Pairwise (· < ·) (hkMatch 7 ⟨0, 2, [7, 3, 7]⟩ 5).1 := by
  have h := (match_spec 7 ⟨0, 2, [7, 3, 7]⟩ 5).2 (by decide)
  exact ⟨by decide, h.1, h.2⟩

/-- C10: confirmed. With targetAmount 0 the early-stop rule of Spends
never fires, regardless of feeDeduct: the loop walks the whole UTXO list,
producing an input for every spendable UTXO and the total of all their
amounts. -/
theorem spends_no_target_spends_all (kaddr now fee : Nat) (outputs : List UTXO) :
    Spends kaddr outputs ⟨now, 0, fee⟩ =
      (spendAllTotal kaddr now outputs,
       sortTransferableInputs (spendAllInputs kaddr now outputs)) := by
  have haux : ∀ (l : List UTXO) (total : Nat),
      SpendsAux kaddr ⟨now, 0, fee⟩ l total =
        (total + spendAllTotal kaddr now l, spendAllInputs kaddr now l) := by
    intro l
    induction l with
    | nil => intro total; simp [SpendsAux, spendAllInputs, spendAllTotal]
    | cons u rest ih =>
      intro total
      cases hs : spendIn kaddr u.out now with
      | error e =>
        simp only [SpendsAux, hs, ih, spendAllInputs, spendAllTotal, List.filterMap_cons]
      | ok i =>
        simp only [SpendsAux, hs]
        have hcond : ¬ (0 < (⟨now, 0, fee⟩ : SpOp).targetAmount ∧
            (⟨now, 0, fee⟩ : SpOp).targetAmount + (⟨now, 0, fee⟩ : SpOp).feeDeduct
              < total + i.amt) := by
          intro hcontra
          exact absurd hcontra.1 (by simp)
        rw [if_neg hcond, ih]
        simp only [spendAllInputs, spendAllTotal, List.filterMap_cons, hs,
          List.map_cons, List.sum_cons, Prod.mk.injEq]
        exact ⟨by omega, trivial⟩
  unfold Spends
  rw [haux outputs 0]
  simp [spendAllTotal]

theorem readASCII_full : ∀ (l s : List Nat), (∀ c ∈ l, 0x21 ≤ c) →
    readASCII l.length (l ++ s) = (l, s)
  | [], _, _ => rfl
  | c :: cs, s, h => by
    have hc : ¬ c < 0x21 := Nat.not_lt.mpr (h c (List.mem_cons_self c cs))
    have ih := readASCII_full cs s (fun x hx => h x (List.mem_cons_of_mem c hx))
    simp only [List.length_cons, List.cons_append, readASCII, if_neg hc,
      List.append_eq, ih]

theorem hexDigit_printable {c : Nat} (h : (hexDigitVal c).isSome) : 0x21 ≤ c := by
  unfold hexDigitVal at h
  split_ifs at h with h1 h2 h3
  · omega
  · omega
  · omega
  · simp at h

theorem hexDigit_no_newline {c : Nat} (h : (hexDigitVal c).isSome) : c ≠ 10 ∧ c ≠ 13 := by
  unfold hexDigitVal at h
  split_ifs at h with h1 h2 h3
  · omega
  · omega
  · omega
  · simp at h

theorem hexDecode_isSome : ∀ l : List Nat, (∀ c ∈ l, (hexDigitVal c).isSome) →
    l.length % 2 = 0 → (hexDecode l).isSome
  | [], _, _ => by simp [hexDecode]
  | [x], _, hlen => by simp at hlen
  | a :: b :: rest, h, hlen => by
    have ha : (hexDigitVal a).isSome := h a (by simp)
    have hb : (hexDigitVal b).isSome := h b (by simp)
    have hr : (hexDecode rest).isSome := by
      refine hexDecode_isSome rest (fun c hc => h c (by simp [hc])) ?_
      simp only [List.length_cons] at hlen
      omega
    obtain ⟨x, hx⟩ := Option.isSome_iff_exists.mp ha
    obtain ⟨y, hy⟩ := Option.isSome_iff_exists.mp hb
    obtain ⟨tl, htl⟩ := Option.isSome_iff_exists.mp hr
    simp [hexDecode, hx, hy, htl]

theorem hexDecode_none_of_bad : ∀ l : List Nat, (∃ c ∈ l, hexDigitVal c = none) →
    hexDecode l = none
  | [], h => by simp at h
  | [x], _ => rfl
  | a :: b :: rest, h => by
    rcases h with ⟨c, hc, hbad⟩
    simp only [List.mem_cons] at hc
    rcases hc with rfl | rfl | hc
    · simp [hexDecode, hbad]
    · cases hx : hexDigitVal a <;> simp [hexDecode, hx, hbad]
    · have hr := hexDecode_none_of_bad rest ⟨c, hc, hbad⟩
      cases hx : hexDigitVal a <;> cases hy : hexDigitVal b <;>
        simp [hexDecode, hx, hy, hr]

/-- C6 counterexample: a file of 65 hex characters (65 ASCII zeros) makes
LoadSoft fail with the invalid-ENDING error (checkKeyFileEnd sees a 65th
printable byte), not the invalid-length error the claim names. -/
theorem loadSoft_65_hex_gives_ending_error :
    LoadSoft extNone (List.replicate 65 48) = Except.error KeyErr.invalidPrivateKeyEnding ∧
    LoadSoft extNone (List.replicate 65 48) ≠ Except.error KeyErr.invalidPrivateKeyLen := by
  have h1 : LoadSoft extNone (List.replicate 65 48) =
      Except.error KeyErr.invalidPrivateKeyEnding := rfl
  refine ⟨h1, ?_⟩
  rw [h1]
  intro hcontra
  exact KeyErr.noConfusion (Except.error.inj hcontra)

/-- C6: corrected. A key file of 64 hex characters plus exactly one
newline loads successfully (when the 32 decoded bytes form a valid key);
a file of 65 hex characters fails with the invalid-ENDING error (not the
invalid-length error); a 64-byte printable file containing a non-hex
character fails with the hex-encoding error. Each part assumes the
encoded-key first attempt of LoadSoft fails, which it does for such files
(they are not checksummed CB58 texts). -/
theorem loadSoft_format_spec :
    (∀ (ext : ExtCrypto) (hx : List Nat), hx.length = 64 →
      (∀ c ∈ hx, (hexDigitVal c).isSome) →
      (∃ e, newSoftEncoded ext (hx ++ [10]) = Except.error e) →
      (∀ bs, (ext.toPrivateKey bs).isSome) →
      ∃ pk, LoadSoft ext (hx ++ [10]) = Except.ok pk) ∧
    (∀ (ext : ExtCrypto) (hx : List Nat), hx.length = 65 →
      (∀ c ∈ hx, (hexDigitVal c).isSome) →
      (∃ e, newSoftEncoded ext hx = Except.error e) →
      LoadSoft ext hx = Except.error KeyErr.invalidPrivateKeyEnding) ∧
    (∀ (ext : ExtCrypto) (kb : List Nat), kb.length = 64 →
      (∀ c ∈ kb, 0x21 ≤ c) →
      (∃ c ∈ kb, hexDigitVal c = none) →
      (∃ e, newSoftEncoded ext kb = Except.error e) →
      LoadSoft ext kb = Except.error KeyErr.hexDecodeErr) := by
  refine ⟨?_, ?_, ?_⟩
  · intro ext hx hlen hhex hfirst htp
    obtain ⟨e, henc⟩ := hfirst
    have hread : readASCII 64 (hx ++ [10]) = (hx, [10]) := by
      have := readASCII_full hx [10] (fun c hc => hexDigit_printable (hhex c hc))
      rwa [hlen] at this
    have hdec : (hexDecode hx).isSome :=
      hexDecode_isSome hx hhex (by omega)
    obtain ⟨bs, hbs⟩ := Option.isSome_iff_exists.mp hdec
    obtain ⟨pk, hpk⟩ := Option.isSome_iff_exists.mp (htp bs)
    refine ⟨pk, ?_⟩
    have hend : checkKeyFileEnd [10] = none := rfl
    unfold LoadSoft
    simp [henc, hread, hend, hbs, hpk, hlen, privKeySize]
  · intro ext hx hlen hhex hfirst
    obtain ⟨e, henc⟩ := hfirst
    obtain ⟨l64, d, hsplit, hl64, hd⟩ :
        ∃ (l64 : List Nat) (d : Nat), hx = l64 ++ [d] ∧ l64.length = 64 ∧ d ∈ hx := by
      rcases List.eq_nil_or_concat hx with rfl | ⟨l64, d, hcat⟩
      · simp at hlen
      · refine ⟨l64, d, ?_, ?_, ?_⟩
        · rw [hcat, List.concat_eq_append]
        · rw [hcat, List.concat_eq_append] at hlen
          simp at hlen
          omega
        · rw [hcat, List.concat_eq_append]
          simp
    have hread : readASCII 64 hx = (l64, [d]) := by
      have := readASCII_full l64 [d]
        (fun c hc => hexDigit_printable (hhex c (by rw [hsplit]; simp [hc])))
      rw [hl64] at this
      rw [hsplit]
      exact this
    have hnl := hexDigit_no_newline (hhex d hd)
    have hend : checkKeyFileEnd [d] = some KeyErr.invalidPrivateKeyEnding := by
      unfold checkKeyFileEnd checkKeyFileEndAux
      rw [if_pos ⟨hnl.1, hnl.2⟩]
    unfold LoadSoft
    simp [henc, hread, hend, hl64, privKeySize]
  · intro ext kb hlen hpr hbad hfirst
    obtain ⟨e, henc⟩ := hfirst
    have hread : readASCII 64 kb = (kb, []) := by
      have := readASCII_full kb [] hpr
      rw [hlen] at this
      rwa [List.append_nil] at this
    have hend : checkKeyFileEnd ([] : List Nat) = none := rfl
    unfold LoadSoft
    simp [henc, hread, hend, hlen, privKeySize, hexDecode_none_of_bad kb hbad]

/-- Witness for C6 at concrete files: 64 zeros plus one newline loads; 65
zeros fails with the invalid-ending error; 64 lowercase letter-l bytes
(printable, not hex) fail with the hex-encoding error. -/
theorem loadSoft_format_spec_witness :
    (∃ pk, LoadSoft extNone (List.replicate 64 48 ++ [10]) = Except.ok pk) ∧
    LoadSoft extNone (List.replicate 65 48) = Except.error KeyErr.invalidPrivateKeyEnding ∧
    LoadSoft extNone (List.replicate 64 108) = Except.error KeyErr.hexDecodeErr := by
  refine ⟨?_, ?_, ?_⟩
  · exact loadSoft_format_spec.1 extNone (List.replicate 64 48) (by decide)
      (by decide) ⟨KeyErr.cb58DecodeErr, rfl⟩ (fun bs => rfl)
  · exact loadSoft_format_spec.2.1 extNone (List.replicate 65 48) (by decide)
      (by decide) ⟨KeyErr.cb58DecodeErr, rfl⟩
  · exact loadSoft_format_spec.2.2 extNone (List.replicate 64 108) (by decide)
      (by decide) (by decide) ⟨KeyErr.cb58DecodeErr, rfl⟩

/-- C4 counterexample: signing a transaction that requires 2 signatures
succeeds after exactly ONE device interaction, refuting "sends the hash
and the path to the device once per required signature". -/
theorem hardSign_device_called_once_not_per_signature :
    (hardSign envSgn devSgn 0 txSgn 2).2.2.length = 1 ∧
    (hardSign envSgn devSgn 0 txSgn 2).1 = none ∧
    ¬ (hardSign envSgn devSgn 0 txSgn 2).2.2.length = 2 := by
  refine ⟨rfl, rfl, ?_⟩
  intro h
  rw [show (hardSign envSgn devSgn 0 txSgn 2).2.2.length = 1 from rfl] at h
  omega

/-- C4: corrected. HardKey.Sign consults the device at most once per Sign
call (not once per required signature); on a device error the transaction
is returned untouched (no credential attached, no bytes committed); on
success the single returned signature's credential is appended once per
required signature, and the serialized bytes and the content ID are
re-derived from the signed encoding. -/
theorem hardSign_spec (env : SignEnv) (dev : LedgerDevice) (acct : Nat)
    (tx : PTx) (sigs : Nat) :
    (hardSign env dev acct tx sigs).2.2.length ≤ 1 ∧
    (∀ c, (hardSign env dev acct tx sigs).1 = some (.deviceErr c) →
      (hardSign env dev acct tx sigs).2.1 = tx) ∧
    ((hardSign env dev acct tx sigs).1 = none →
      ∃ cred ub sb,
        env.marshalUnsigned tx.utx = some ub ∧
        (hardSign env dev acct tx sigs).2.1.creds = tx.creds ++ List.replicate sigs cred ∧
        env.marshalSigned tx.utx ((hardSign env dev acct tx sigs).2.1.creds) = some sb ∧
        (hardSign env dev acct tx sigs).2.1.signedBytes = sb ∧
        (hardSign env dev acct tx sigs).2.1.unsignedBytes = ub ∧
        (hardSign env dev acct tx sigs).2.1.txID = env.hash256 sb) := by
  cases hmu : env.marshalUnsigned tx.utx with
  | none =>
    refine ⟨?_, ?_, ?_⟩
    · simp [hardSign, hmu]
    · intro c hc
      simp [hardSign, hmu] at hc
    · intro hc
      simp [hardSign, hmu] at hc
  | some ub =>
    cases hdev : dev.signHashFn (env.hash256 ub) [[0, acct]] with
    | error c =>
      refine ⟨?_, ?_, ?_⟩
      · simp [hardSign, hmu, hdev]
      · intro c2 _
        simp [hardSign, hmu, hdev]
      · intro hc
        simp [hardSign, hmu, hdev] at hc
    | ok sigArr =>
      cases hms : env.marshalSigned tx.utx
          (tx.creds ++ List.replicate sigs ⟨[copyFixed sigLen (headOrNil sigArr)]⟩) with
      | none =>
        refine ⟨?_, ?_, ?_⟩
        · simp [hardSign, hmu, hdev, hms]
        · intro c hc
          simp [hardSign, hmu, hdev, hms] at hc
        · intro hc
          simp [hardSign, hmu, hdev, hms] at hc
      | some sb =>
        refine ⟨?_, ?_, ?_⟩
        · simp [hardSign, hmu, hdev, hms]
        · intro c hc
          simp [hardSign, hmu, hdev, hms] at hc
        · intro _
          refine ⟨⟨[copyFixed sigLen (headOrNil sigArr)]⟩, ub, sb, ?_, ?_, ?_, ?_, ?_, ?_⟩ <;>
            simp [hardSign, hmu, hdev, hms]

/-- Witness for C4 at the concrete environment: a 3-signature Sign call
succeeds, with the three identical credentials attached and bytes plus ID
re-derived. -/
theorem hardSign_spec_witness :
    (hardSign envSgn devSgn 0 txSgn 3).1 = none ∧
    (hardSign envSgn devSgn 0 txSgn 3).2.2.length ≤ 1 ∧
    (∃ cred ub sb,
      envSgn.marshalUnsigned txSgn.utx = some ub ∧
      (hardSign envSgn devSgn 0 txSgn 3).2.1.creds = txSgn.creds ++ List.replicate 3 cred ∧
      envSgn.marshalSigned txSgn.utx ((hardSign envSgn devSgn 0 txSgn 3).2.1.creds) = some sb ∧
      (hardSign envSgn devSgn 0 txSgn 3).2.1.signedBytes = sb ∧
      (hardSign envSgn devSgn 0 txSgn 3).2.1.unsignedBytes = ub ∧
      (hardSign envSgn devSgn 0 txSgn 3).2.1.txID = envSgn.hash256 sb) := by
  have h := hardSign_spec envSgn devSgn 0 txSgn 3
  exact ⟨rfl, h.1, h.2.2 rfl⟩

/-- C7: the code masks lookup failures. When the initial subnet-validator
lookup fails with a network error (not the not-found sentinel),
AddSubnetValidator reports the node as already a subnet validator instead
of propagating the lookup error, because the source only tests
errors.Is(err, ErrValidatorNotFound) (part_004 lines 272-275), unlike the
sibling AddValidator (lines 370-375) which propagates such errors. -/
theorem addSubnetValidator_masks_lookup_network_error :
    getValidatorFor env7.validatorsOf env7.pfxStr 5 9 = Except.error (GVErr.netErr 77) ∧
    (AddSubnetValidator env7 1 1 5 9 100 200 50).1 =
      Except.error CErr.alreadySubnetValidator := by
  exact ⟨rfl, rfl⟩

/-- C8: confirmed. With the node not on the subnet yet: a requested window
escaping the node's primary-network window on either side fails with the
invalid-subnet-validate-period error after only the two validator lookups
(no fee fetch, no UTXO fetch / coin selection, no signing, no submission,
no polling); a node that is no primary-network validator at all fails with
the not-validating-primary-network error, equally early. -/
theorem addSubnetValidator_precondition_checks :
    (∀ (env : ASVEnv) (kaddr assetID subnetID nodeID : Nat) (startT endT : Int)
      (now : Nat) (vs ve : Int),
      subnetID ≠ 0 → nodeID ≠ 0 →
      getValidatorFor env.validatorsOf env.pfxStr subnetID nodeID =
        Except.error GVErr.validatorNotFound →
      getValidatorFor env.validatorsOf env.pfxStr 0 nodeID = Except.ok (vs, ve) →
      (startT < vs ∨ ve < endT) →
      AddSubnetValidator env kaddr assetID subnetID nodeID startT endT now =
        (Except.error CErr.invalidSubnetValidatePeriod,
         [Eff.getValidators subnetID, Eff.getValidators 0])) ∧
    (∀ (env : ASVEnv) (kaddr assetID subnetID nodeID : Nat) (startT endT : Int)
      (now : Nat),
      subnetID ≠ 0 → nodeID ≠ 0 →
      getValidatorFor env.validatorsOf env.pfxStr subnetID nodeID =
        Except.error GVErr.validatorNotFound →
      getValidatorFor env.validatorsOf env.pfxStr 0 nodeID =
        Except.error GVErr.validatorNotFound →
      AddSubnetValidator env kaddr assetID subnetID nodeID startT endT now =
        (Except.error CErr.notValidatingPrimaryNetwork,
         [Eff.getValidators subnetID, Eff.getValidators 0])) := by
  constructor
  · intro env kaddr assetID subnetID nodeID startT endT now vs ve hsub hnode h1 h2 hwin
    simp only [AddSubnetValidator, if_neg hsub, if_neg hnode, h1, h2]
    rcases lt_or_le startT vs with hlt | hge
    · simp [if_pos hlt]
    · rw [if_neg (not_lt.mpr hge)]
      have hve : ve < endT := by
        rcases hwin with hw | hw
        · exact absurd hw (not_lt.mpr hge)
        · exact hw
      simp [if_pos hve]
  · intro env kaddr assetID subnetID nodeID startT endT now hsub hnode h1 h2
    simp only [AddSubnetValidator, if_neg hsub, if_neg hnode, h1, h2]
    simp

/-- Witness for C8 at concrete environments: window [50, 150] against a
primary window [100, 200] is rejected as an invalid subnet validate
period; a node validating nothing is rejected as not validating the
primary network. -/
theorem addSubnetValidator_precondition_checks_witness :
    AddSubnetValidator env8 1 1 5 9 50 150 0 =
      (Except.error CErr.invalidSubnetValidatePeriod,
       [Eff.getValidators 5, Eff.getValidators 0]) ∧
    AddSubnetValidator env8b 1 1 5 9 50 150 0 =
      (Except.error CErr.notValidatingPrimaryNetwork,
       [Eff.getValidators 5, Eff.getValidators 0]) := by
  constructor
  · exact addSubnetValidator_precondition_checks.1 env8 1 1 5 9 50 150 0 100 200
      (by decide) (by decide) rfl rfl (Or.inl (by decide))
  · exact addSubnetValidator_precondition_checks.2 env8b 1 1 5 9 50 150 0
      (by decide) (by decide) rfl rfl

theorem Spends3_single_err {kaddr now : Nat} {u : UTXO} {e : SpendErr}
    (h : spendIn kaddr u.out now = .error e) :
    Spends3 kaddr [u] ⟨now, 0, 0⟩ = (0, [], []) := by
  simp [Spends3, Spends3Aux, h, SortTransferableInputsWithSigners,
    List.insertionSort]

theorem Spends3_single_ok {kaddr now : Nat} {u : UTXO} {i : TransferInput}
    (h : spendIn kaddr u.out now = .ok i) :
    Spends3 kaddr [u] ⟨now, 0, 0⟩ =
      (i.amt, [⟨u.utxoID, u.assetID, i⟩], [i.sigIndices.map (fun _ => kaddr)]) := by
  simp [Spends3, Spends3Aux, h, SortTransferableInputsWithSigners,
    List.insertionSort, List.orderedInsert]

/-- Pass 1 of stake never consumes anything in this code base: its only
spend attempt hands the still-wrapped StakeableLockOut to the key, whose
spend path (part_001 lines 120-141) recognises only mint and transfer
outputs, so every locked UTXO is skipped. -/
theorem stakePass1_id (kaddr assetID stakeAmt changeAddr now : Nat) :
    ∀ (l : List UTXO) (st : StakeState),
      stakePass1 kaddr assetID stakeAmt changeAddr now l st = st := by
  intro l
  induction l with
  | nil => intro st; rfl
  | cons u rest ih =>
    intro st
    unfold stakePass1
    by_cases h1 : stakeAmt ≤ st.amountStaked
    · rw [if_pos h1]
    · rw [if_neg h1]
      by_cases h2 : u.assetID ≠ assetID
      · rw [if_pos h2]; exact ih st
      · rw [if_neg h2]
        cases hout : u.out with
        | transfer amt o => exact ih st
        | mint o => exact ih st
        | stakeableLock lk innerOut =>
          simp only []
          by_cases h3 : lk ≤ now
          · rw [if_pos h3]; exact ih st
          · rw [if_neg h3]
            have hsp : spendIn kaddr u.out now = .error .unexpectedType := by
              rw [hout]; rfl
            cases innerOut with
            | transfer iamt iowners =>
              simp only [Spends3_single_err hsp]
              exact ih st
            | mint o2 => exact ih st
            | stakeableLock l2 i2 => exact ih st

theorem stakePass2Step_err {kaddr assetID stakeAmt fee changeAddr now : Nat} {u : UTXO}
    {e : SpendErr} (h : spendIn kaddr u.out now = .error e) (st : StakeState) :
    stakePass2Step kaddr assetID stakeAmt fee changeAddr now u st = st := by
  unfold stakePass2Step
  rw [Spends3_single_err h]

theorem stakePass2Step_inv {kaddr assetID stakeAmt fee changeAddr now : Nat} {u : UTXO}
    {st : StakeState} (hinv : accInv stakeAmt fee st) :
    accInv stakeAmt fee (stakePass2Step kaddr assetID stakeAmt fee changeAddr now u st) := by
  cases hsp : spendIn kaddr u.out now with
  | error e => rw [stakePass2Step_err hsp]; exact hinv
  | ok i =>
    obtain ⟨hc, hs, hsa, hba, hlen⟩ := hinv
    unfold stakePass2Step
    rw [Spends3_single_ok hsp]
    simp only [accInv, sumIns, sumOuts] at *
    split_ifs with hif1 hif2 <;>
      simp only [List.map_append, List.sum_append, List.length_append, List.map_cons,
        List.map_nil, List.sum_cons, List.sum_nil, List.length_cons, List.length_nil,
        outAmt, List.length_map] <;>
      refine ⟨by omega, by omega, by omega, by omega, by omega⟩

theorem stakePass2Step_burn {kaddr assetID fee changeAddr now : Nat} {u : UTXO}
    {st : StakeState} (h0 : st.amountStaked = 0) (hb : st.amountBurned ≤ fee) :
    (stakePass2Step kaddr assetID 0 fee changeAddr now u st).amountBurned
        = min fee (st.amountBurned + spendAmtOf kaddr now u.out) ∧
    (stakePass2Step kaddr assetID 0 fee changeAddr now u st).amountStaked = 0 ∧
    (stakePass2Step kaddr assetID 0 fee changeAddr now u st).amountBurned ≤ fee := by
  cases hsp : spendIn kaddr u.out now with
  | error e =>
    rw [stakePass2Step_err hsp]
    simp only [spendAmtOf, hsp]
    refine ⟨by omega, h0, hb⟩
  | ok i =>
    unfold stakePass2Step
    rw [Spends3_single_ok hsp]
    simp only [spendAmtOf, hsp]
    split_ifs with hif1 hif2 <;> simp only [] <;> refine ⟨by omega, by omega, by omega⟩

theorem stakePass2_inv (kaddr assetID stakeAmt fee changeAddr now : Nat) :
    ∀ (l : List UTXO) (st : StakeState), accInv stakeAmt fee st →
      accInv stakeAmt fee
        (stakePass2 kaddr assetID stakeAmt fee changeAddr now l st).1 := by
  intro l
  induction l with
  | nil => intro st h; exact h
  | cons u rest ih =>
    intro st h
    unfold stakePass2
    by_cases h1 : stakeAmt ≤ st.amountStaked ∧ fee ≤ st.amountBurned
    · rw [if_pos h1]; exact h
    · rw [if_neg h1]
      by_cases h2 : u.assetID ≠ assetID
      · rw [if_pos h2]
        exact ih st h
      · rw [if_neg h2]
        cases hout : u.out with
        | transfer amt o =>
          simp only []
          exact ih _ (stakePass2Step_inv h)
        | mint o =>
          simp only []
          exact ih _ (stakePass2Step_inv h)
        | stakeableLock lk innerOut =>
          simp only []
          by_cases h3 : now < lk
          · rw [if_pos h3]
            exact ih st h
          · rw [if_neg h3]
            exact ih _ (stakePass2Step_inv h)

theorem stakePass2_burn (kaddr assetID fee changeAddr now : Nat) :
    ∀ (l : List UTXO) (st : StakeState), st.amountStaked = 0 → st.amountBurned ≤ fee →
      (stakePass2 kaddr assetID 0 fee changeAddr now l st).1.amountBurned
          = min fee (st.amountBurned + spendableTotal kaddr assetID now l) ∧
      (stakePass2 kaddr assetID 0 fee changeAddr now l st).1.amountStaked = 0 := by
  intro l
  induction l with
  | nil =>
    intro st h0 hb
    simp only [stakePass2, spendableTotal, List.map_nil, List.sum_nil]
    exact ⟨by omega, h0⟩
  | cons u rest ih =>
    intro st h0 hb
    have hsums : spendableTotal kaddr assetID now (u :: rest) =
        pass2SpendAmt kaddr assetID now u + spendableTotal kaddr assetID now rest := by
      simp [spendableTotal]
    unfold stakePass2
    by_cases h1 : (0 : Nat) ≤ st.amountStaked ∧ fee ≤ st.amountBurned
    · rw [if_pos h1]
      simp only []
      have : st.amountBurned = fee := Nat.le_antisymm hb h1.2
      refine ⟨by omega, h0⟩
    · rw [if_neg h1]
      have hlt : st.amountBurned < fee := by
        rcases Nat.lt_or_ge st.amountBurned fee with hx | hx
        · exact hx
        · exact absurd ⟨Nat.zero_le _, hx⟩ h1
      by_cases h2 : u.assetID ≠ assetID
      · rw [if_pos h2]
        have hz : pass2SpendAmt kaddr assetID now u = 0 := by
          simp [pass2SpendAmt, h2]
        have := ih st h0 hb
        rw [hsums, hz]
        simpa using this
      · rw [if_neg h2]
        cases hout : u.out with
        | transfer amt o =>
          simp only []
          have hstep := @stakePass2Step_burn kaddr assetID fee changeAddr now u st h0 hb
          have hz : pass2SpendAmt kaddr assetID now u = spendAmtOf kaddr now u.out := by
            simp [pass2SpendAmt, h2, hout, spendAmtOf]
          have := ih _ hstep.2.1 hstep.2.2
          rw [hsums, hz]
          rw [this.1, hstep.1]
          refine ⟨by omega, this.2⟩
        | mint o =>
          simp only []
          have hstep := @stakePass2Step_burn kaddr assetID fee changeAddr now u st h0 hb
          have hz : pass2SpendAmt kaddr assetID now u = spendAmtOf kaddr now u.out := by
            simp [pass2SpendAmt, h2, hout, spendAmtOf]
          have := ih _ hstep.2.1 hstep.2.2
          rw [hsums, hz]
          rw [this.1, hstep.1]
          refine ⟨by omega, this.2⟩
        | stakeableLock lk innerOut =>
          simp only []
          by_cases h3 : now < lk
          · rw [if_pos h3]
            have hz : pass2SpendAmt kaddr assetID now u = 0 := by
              simp [pass2SpendAmt, h2, hout, h3]
            have := ih st h0 hb
            rw [hsums, hz]
            simpa using this
          · rw [if_neg h3]
            have hstep := @stakePass2Step_burn kaddr assetID fee changeAddr now
              ({ u with out := innerOut }) st h0 hb
            simp only [] at hstep
            have hz : pass2SpendAmt kaddr assetID now u =
                spendAmtOf kaddr now innerOut := by
              simp [pass2SpendAmt, h2, hout, h3, spendAmtOf]
            have := ih _ hstep.2.1 hstep.2.2
            rw [hsums, hz]
            rw [this.1, hstep.1]
            refine ⟨by omega, this.2⟩

theorem stakePass2_frame (kaddr assetID stakeAmt fee changeAddr now : Nat) :
    ∀ (l : List UTXO) (st : StakeState),
      List.Forall₂ (unwrapRel now) l
        (stakePass2 kaddr assetID stakeAmt fee changeAddr now l st).2 := by
  intro l
  induction l with
  | nil => intro st; exact List.Forall₂.nil
  | cons u rest ih =>
    intro st
    unfold stakePass2
    by_cases h1 : stakeAmt ≤ st.amountStaked ∧ fee ≤ st.amountBurned
    · rw [if_pos h1]
      exact forall₂_self (unwrapRel_refl now) (u :: rest)
    · rw [if_neg h1]
      by_cases h2 : u.assetID ≠ assetID
      · rw [if_pos h2]
        exact List.Forall₂.cons (unwrapRel_refl now u) (ih st)
      · rw [if_neg h2]
        cases hout : u.out with
        | transfer amt o =>
          simp only []
          exact List.Forall₂.cons (unwrapRel_refl now u) (ih _)
        | mint o =>
          simp only []
          exact List.Forall₂.cons (unwrapRel_refl now u) (ih _)
        | stakeableLock lk innerOut =>
          simp only []
          by_cases h3 : now < lk
          · rw [if_pos h3]
            exact List.Forall₂.cons (unwrapRel_refl now u) (ih st)
          · rw [if_neg h3]
            exact List.Forall₂.cons
              (Or.inr ⟨lk, innerOut, hout, by omega, rfl⟩) (ih _)

theorem sumOuts_sort (l : List TransferableOutput) :
    sumOuts (SortTransferableOutputs l) = sumOuts l := by
  unfold sumOuts SortTransferableOutputs
  exact ((List.perm_insertionSort outputLe l).map _).sum_eq

theorem sumIns_sortWithSigners (ins : List TransferableInput)
    (signers : List (List Nat)) (h : ins.length = signers.length) :
    sumIns (SortTransferableInputsWithSigners ins signers).1 = sumIns ins := by
  simp only [sumIns, SortTransferableInputsWithSigners, List.map_map]
  have hperm := (List.perm_insertionSort inputPairLe (ins.zip signers)).map
    ((fun t : TransferableInput => t.inp.amt) ∘ Prod.fst)
  rw [hperm.sum_eq, ← List.map_map, List.map_fst_zip ins signers (le_of_eq h)]

/-- C1 counterexample: with an empty UTXO set, a stake target of 1000 and
fee 0, stake returns WITHOUT error (its partial-progress check only fires
when a positive amount was staked), yet the staked outputs sum to 0, not
to the target. -/
theorem stake_empty_utxos_succeeds_short_of_target :
    ((stake 1 1 1 5 1000 0 []).1).err = none ∧
    sumOuts ((stake 1 1 1 5 1000 0 []).1).stakedOuts ≠ 1000 := by
  exact ⟨rfl, by decide⟩

/-- C1: corrected. When stake returns without error, the input total
equals the returned total plus the staked total plus the burned amount
(no value lost or created); the staked total is either exactly the target
S or zero (zero when no UTXO contributed to staking, e.g. an empty UTXO
set); and the burned amount is either exactly the fee F or zero,
symmetrically. When both targets were met this gives
sum(returned) + S + F = sum(inputs). -/
theorem stake_accounting (kaddr assetID changeAddr now stakeAmt fee : Nat)
    (utxos : List UTXO)
    (h : ((stake kaddr assetID changeAddr now stakeAmt fee utxos).1).err = none) :
    ∃ burned,
      sumIns ((stake kaddr assetID changeAddr now stakeAmt fee utxos).1).ins =
        sumOuts ((stake kaddr assetID changeAddr now stakeAmt fee utxos).1).returnedOuts +
        sumOuts ((stake kaddr assetID changeAddr now stakeAmt fee utxos).1).stakedOuts +
        burned ∧
      (sumOuts ((stake kaddr assetID changeAddr now stakeAmt fee utxos).1).stakedOuts
          = stakeAmt ∨
       sumOuts ((stake kaddr assetID changeAddr now stakeAmt fee utxos).1).stakedOuts
          = 0) ∧
      (burned = fee ∨ burned = 0) := by
  obtain ⟨hc, hs, hsa, hba, hlen⟩ :=
    stakePass2_inv kaddr assetID stakeAmt fee changeAddr now utxos emptyStakeState
      (by simp [accInv, emptyStakeState, sumIns, sumOuts])
  simp only [stake, stakePass1_id] at h ⊢
  set st2 := (stakePass2 kaddr assetID stakeAmt fee changeAddr now utxos
    emptyStakeState).1 with hst2
  by_cases e1 : 0 < st2.amountStaked ∧ st2.amountStaked < stakeAmt
  · rw [if_pos e1] at h
    simp at h
  · rw [if_neg e1] at h ⊢
    by_cases e2 : 0 < st2.amountBurned ∧ st2.amountBurned < fee
    · rw [if_pos e2] at h
      simp at h
    · rw [if_neg e2]
      refine ⟨st2.amountBurned, ?_, ?_, by omega⟩
      · simp only []
        rw [sumIns_sortWithSigners _ _ hlen, sumOuts_sort, sumOuts_sort]
        exact hc
      · simp only []
        rw [sumOuts_sort, hs]
        omega

/-- Witness for C1 at the spec's scenario B: one unlocked output of 2500,
target 2000, fee 100; the call succeeds and the amended accounting holds
with burned = 100. -/
theorem stake_accounting_witness :
    ((stake 1 1 1 10 2000 100 [utxoB]).1).err = none ∧
    ∃ burned,
      sumIns ((stake 1 1 1 10 2000 100 [utxoB]).1).ins =
        sumOuts ((stake 1 1 1 10 2000 100 [utxoB]).1).returnedOuts +
        sumOuts ((stake 1 1 1 10 2000 100 [utxoB]).1).stakedOuts + burned ∧
      (sumOuts ((stake 1 1 1 10 2000 100 [utxoB]).1).stakedOuts = 2000 ∨
       sumOuts ((stake 1 1 1 10 2000 100 [utxoB]).1).stakedOuts = 0) ∧
      (burned = 100 ∨ burned = 0) := by
  exact ⟨rfl, stake_accounting 1 1 1 10 2000 100 [utxoB] rfl⟩

/-- C2 counterexample: a UTXO wrapped in an elapsed stakeable lock comes
out of the call with its output field rewritten in place to the inner
transfer output (part_004 line 754), so the snapshot is NOT byte-identical
after the call — even though this UTXO was not even spendable by the key. -/
theorem stake_rewrites_elapsed_lock_in_place :
    (stake 1 1 2 10 0 5 [utxoLocked]).2 =
      [⟨⟨[1], 0⟩, 1, .transfer 10 ⟨0, 1, [9]⟩⟩] ∧
    (stake 1 1 2 10 0 5 [utxoLocked]).2 ≠ [utxoLocked] := by
  exact ⟨rfl, by decide⟩

/-- C2: corrected. The selector leaves every observed UTXO alone EXCEPT
for the pass-2 unwrap: a UTXO whose output is a stakeable lock with
elapsed lock time may have its output field rewritten in place to the
wrapped inner output; no other mutation ever happens, and consumed UTXOs
are otherwise only turned into inputs. -/
theorem stake_frame_condition (kaddr assetID changeAddr now stakeAmt fee : Nat)
    (utxos : List UTXO) :
    List.Forall₂ (unwrapRel now) utxos
      (stake kaddr assetID changeAddr now stakeAmt fee utxos).2 := by
  have hbase := stakePass2_frame kaddr assetID stakeAmt fee changeAddr now utxos
    (stakePass1 kaddr assetID stakeAmt changeAddr now utxos emptyStakeState)
  simp only [stake]
  split_ifs <;> exact hbase

/-- C3 counterexample: with an empty UTXO set the combined spendable value
0 is below the fee 100 and the stake target is 0, yet the call SUCCEEDS
(no insufficient-fee error), because the fee check only fires when a
positive amount was burned. -/
theorem stake_zero_spendable_no_fee_error :
    spendableTotal 1 1 10 [] = 0 ∧ (0 : Nat) < 100 ∧
    ((stake 1 1 1 10 0 100 []).1).err = none := by
  exact ⟨rfl, by omega, rfl⟩

/-- C3: corrected. When the combined spendable value is POSITIVE and below
the fee F, with stake target 0, stake fails with the
insufficient-balance-for-gas-fee error and returns empty input, returned,
staked and signer lists. -/
theorem stake_insufficient_fee_error (kaddr assetID changeAddr now fee : Nat)
    (utxos : List UTXO)
    (h1 : 0 < spendableTotal kaddr assetID now utxos)
    (h2 : spendableTotal kaddr assetID now utxos < fee) :
    (stake kaddr assetID changeAddr now 0 fee utxos).1 =
      ⟨[], [], [], [], some StakeErr.insufficientBalanceForGasFee⟩ := by
  have hb := stakePass2_burn kaddr assetID fee changeAddr now utxos emptyStakeState rfl
    (by simp [emptyStakeState])
  simp only [stake, stakePass1_id]
  set st2 := (stakePass2 kaddr assetID 0 fee changeAddr now utxos
    emptyStakeState).1 with hst2
  have hstk : st2.amountStaked = 0 := hb.2
  have hburn : st2.amountBurned = spendableTotal kaddr assetID now utxos := by
    rw [hb.1]
    simp only [emptyStakeState]
    omega
  rw [if_neg (by omega), if_pos (by omega)]

/-- Witness for C3: one spendable output of 30 against a fee of 100 fails
with the insufficient-fee error and all-empty lists. -/
theorem stake_insufficient_fee_error_witness :
    (0 : Nat) < spendableTotal 1 1 10 [utxoSmall] ∧
    spendableTotal 1 1 10 [utxoSmall] < 100 ∧
    (stake 1 1 1 10 0 100 [utxoSmall]).1 =
      ⟨[], [], [], [], some StakeErr.insufficientBalanceForGasFee⟩ := by
  exact ⟨by decide, by decide,
    stake_insufficient_fee_error 1 1 1 10 100 [utxoSmall] (by decide) (by decide)⟩

/-- C9: confirmed (signer production is spec-modelled, the coupled sort is
src). The coupled sort preserves lengths, permutes the zipped
input/signer pairs without separating any pair, and sorts the inputs by
(transaction ID bytes, output index); the accumulator built by the
selection passes always holds equally long input and signer lists, as does
the success result of stake; and in this pure embedding selection is a
function of the snapshot alone, so two runs on one snapshot coincide. -/
theorem sort_inputs_signers_aligned :
    (∀ (ins : List TransferableInput) (signers : List (List Nat)),
      ins.length = signers.length →
      (SortTransferableInputsWithSigners ins signers).1.length = ins.length ∧
      (SortTransferableInputsWithSigners ins signers).2.length = signers.length ∧
      ((SortTransferableInputsWithSigners ins signers).1.zip
          (SortTransferableInputsWithSigners ins signers).2).Perm (ins.zip signers) ∧
      List.Pairwise (fun x y => inputLt y x = false)
        (SortTransferableInputsWithSigners ins signers).1) ∧
    (∀ (kaddr assetID changeAddr now stakeAmt fee : Nat) (utxos : List UTXO),
      ((stakePass2 kaddr assetID stakeAmt fee changeAddr now utxos
          emptyStakeState).1).ins.length =
        ((stakePass2 kaddr assetID stakeAmt fee changeAddr now utxos
          emptyStakeState).1).signers.length ∧
      (((stake kaddr assetID changeAddr now stakeAmt fee utxos).1).err = none →
        ((stake kaddr assetID changeAddr now stakeAmt fee utxos).1).ins.length =
          ((stake kaddr assetID changeAddr now stakeAmt fee utxos).1).signers.length)) ∧
    (∀ (kaddr assetID changeAddr now stakeAmt fee : Nat) (utxos : List UTXO),
      stake kaddr assetID changeAddr now stakeAmt fee utxos =
        stake kaddr assetID changeAddr now stakeAmt fee utxos) := by
  refine ⟨?_, ?_, fun _ _ _ _ _ _ _ => rfl⟩
  · intro ins signers h
    haveI : IsTotal (TransferableInput × List Nat) inputPairLe := ⟨by
      intro a b
      unfold inputPairLe
      cases hab : inputLt b.1 a.1 with
      | false => exact Or.inl rfl
      | true => exact Or.inr (inputLt_asymm hab)⟩
    haveI : IsTrans (TransferableInput × List Nat) inputPairLe := ⟨by
      intro a b c hab hbc
      exact inputLt_not_trans hab hbc⟩
    refine ⟨?_, ?_, ?_, ?_⟩
    · simp [SortTransferableInputsWithSigners, List.length_insertionSort,
        List.length_zip, h]
    · simp [SortTransferableInputsWithSigners, List.length_insertionSort,
        List.length_zip, h]
    · rw [show (SortTransferableInputsWithSigners ins signers).1.zip
          (SortTransferableInputsWithSigners ins signers).2 =
          (ins.zip signers).insertionSort inputPairLe from
          (List.zip_of_prod rfl rfl).symm]
      exact List.perm_insertionSort _ _
    · have hs := List.sorted_insertionSort inputPairLe (ins.zip signers)
      unfold SortTransferableInputsWithSigners
      refine List.Pairwise.map Prod.fst ?_ hs
      intro a b hab
      exact hab
  · intro kaddr assetID changeAddr now stakeAmt fee utxos
    have hinv := stakePass2_inv kaddr assetID stakeAmt fee changeAddr now utxos
      emptyStakeState (by simp [accInv, emptyStakeState, sumIns, sumOuts])
    refine ⟨hinv.2.2.2.2, ?_⟩
    intro h
    simp only [stake, stakePass1_id] at h ⊢
    set st2 := (stakePass2 kaddr assetID stakeAmt fee changeAddr now utxos
      emptyStakeState).1 with hst2
    by_cases e1 : 0 < st2.amountStaked ∧ st2.amountStaked < stakeAmt
    · rw [if_pos e1] at h
      simp at h
    · rw [if_neg e1] at h ⊢
      by_cases e2 : 0 < st2.amountBurned ∧ st2.amountBurned < fee
      · rw [if_pos e2] at h
        simp at h
      · rw [if_neg e2]
        simp [SortTransferableInputsWithSigners]

/-- Witness for C9: a concrete out-of-order pair list is permuted as a
unit and sorted; the concrete scenario-B stake run yields equally long
input and signer lists. -/
theorem sort_inputs_signers_aligned_witness :
    (SortTransferableInputsWithSigners [tinA, tinB] [[1], [2]]).1.length = 2 ∧
    (SortTransferableInputsWithSigners [tinA, tinB] [[1], [2]]).2.length = 2 ∧
    ((SortTransferableInputsWithSigners [tinA, tinB] [[1], [2]]).1.zip
        (SortTransferableInputsWithSigners [tinA, tinB] [[1], [2]]).2).Perm
      ([tinA, tinB].zip [[1], [2]]) ∧
    List.Pairwise (fun x y => inputLt y x = false)
      (SortTransferableInputsWithSigners [tinA, tinB] [[1], [2]]).1 ∧
    ((stake 1 1 1 10 2000 100 [utxoB]).1).ins.length =
      ((stake 1 1 1 10 2000 100 [utxoB]).1).signers.length := by
  have h1 := sort_inputs_signers_aligned.1 [tinA, tinB] [[1], [2]] (by decide)
  have h2 := (sort_inputs_signers_aligned.2.1 1 1 1 10 2000 100 [utxoB]).2 rfl
  exact ⟨h1.1, h1.2.1, h1.2.2.1, h1.2.2.2, h2⟩

end SubnetCLI
